import Mathlib

/-!
# Alertmanager notifier: embedding of `internal/notifier/alertmanager.go`

The adapter is embedded shallowly.  Go strings are Lean strings, the contents
of a Go map are a lookup `String → Option String` (a nil map is `none` of the
option around it), Go `error` values are `Option GoError`, and the external
collaborators (URI parser, strict YAML parser, relabel engine, HTTP post,
timestamp rendering) are fields of a capability record.  `Post` is run as a
function from the state before the call to a record of what it returned, what
it invoked and what it left in the caller's metadata map.
-/

namespace Notifier

/-! ## Go errors -/

/-- Go error values reaching this file: an error produced by a collaborator,
an error annotated by `errors.Wrap` of `github.com/pkg/errors`, and an error
built by `fmt.Errorf` with a `%w` verb. -/
inductive GoError where
  | leaf (msg : String)
  | withMessage (cause : GoError) (msg : String)
  | errorf (pre : String) (cause : GoError)
deriving DecidableEq, Repr

/-- Method `Error()`: the rendered message of an error value. -/
def GoError.Error : GoError → String
  | .leaf msg => msg
  | .withMessage cause msg => msg ++ ": " ++ cause.Error
  | .errorf pre cause => pre ++ cause.Error

/-- `errors.Wrap(err, message)` of `github.com/pkg/errors`: annotates `err`
with `message`; when `err` is nil, `Wrap` returns nil. -/
def Wrap (err : Option GoError) (message : String) : Option GoError :=
  match err with
  | none => none
  | some e => some (.withMessage e message)

/-! ## Go strings -/

/-- Splitting of a character list at every occurrence of `sep`; `acc` holds
the current token reversed. -/
def splitChars (sep : Char) : List Char → List Char → List String
  | [], acc => [String.mk acc.reverse]
  | c :: cs, acc =>
    if c = sep then String.mk acc.reverse :: splitChars sep cs []
    else splitChars sep cs (c :: acc)

/-- `strings.Split(s, ",")`: all tokens between commas, empty ones included;
the result always has at least one element. -/
def splitComma (s : String) : List String :=
  splitChars ',' s.data []

/-! ## Go maps -/

/-- Contents of a Go `map[string]string`. -/
abbrev GoMap := String → Option String

/-- The map made by `make(map[string]string)`. -/
def GoMap.empty : GoMap := fun _ => none

/-- Assignment `m[k] = v`. -/
def GoMap.set (m : GoMap) (k v : String) : GoMap :=
  fun x => if x = k then some v else m x

/-- Builtin `delete(m, k)`. -/
def GoMap.delete (m : GoMap) (k : String) : GoMap :=
  fun x => if x = k then none else m x

/-- Index expression `m[k]` with its `ok` flag, on a map that may be nil:
`none` when the key is absent (always, on a nil map). -/
def mapIndex (md : Option GoMap) (k : String) : Option String :=
  match md with
  | none => none
  | some m => m k

/-! ## Title casing -/

/-- Cased code points of the ASCII range: the letters `A`-`Z` and `a`-`z`. -/
def isCased (c : Char) : Bool := c.isUpper || c.isLower

/-- Mid-word punctuation of the ASCII range (word-break classes Single_Quote,
MidNumLet and MidLetter): apostrophe, full stop and colon. -/
def isMid (c : Char) : Bool := c = Char.ofNat 39 || c = '.' || c = ':'

/-- ASCII code points that end a word: everything in the ASCII range that is
neither a letter, nor mid-word punctuation, nor a digit, nor the underscore
(word-break classes Numeric and ExtendNumLet continue a word). -/
def isBreak (c : Char) : Bool :=
  decide (c.toNat < 128) && !(isCased c || isMid c || c.isDigit || c = '_')

/-- The transform loop of the title caser of `golang.org/x/text/cases` built
with the option `cases.NoLower`, transcribed for the ASCII range only: the
result is `none` as soon as the input holds a code point outside ASCII, whose
case and word-break tables are not reproduced here.  `isMidWord` is the
caser's word state and `wasMid` tells whether the previous code point was
mid-word punctuation.  A cased code point that starts a word is mapped to
upper case; inside a word it is copied (with `NoLower` the lower-case mapping
is replaced by a copy); every uncased code point is copied; a break ends the
word, and so do two mid-word punctuation marks in a row. -/
def titleChars : Bool → Bool → List Char → Option (List Char)
  | _, _, [] => some []
  | isMidWord, wasMid, c :: cs =>
    if c.toNat < 128 then
      let isMidWord := if wasMid && isMid c then false else isMidWord
      if isCased c then
        (titleChars true false cs).map fun out =>
          (if isMidWord then c else c.toUpper) :: out
      else if isBreak c then (titleChars false false cs).map fun out => c :: out
      else (titleChars isMidWord (isMid c) cs).map fun out => c :: out
    else none

/-- What `cases.Title(language.English, cases.NoLower).String(s)` returns when
`s` is made of ASCII code points; `none` for every other string. -/
def titleNoLowerASCII (s : String) : Option String :=
  (titleChars false false s.data).map String.mk

/-! ## Data model -/

/-- The fields of `corev1.ObjectReference` read by the adapter. -/
structure ObjectReference where
  Kind : String
  Namespace : String
  Name : String

/-- The fields of `events.Event` read by the adapter.  `Metadata` is `none`
for a nil map and otherwise holds the contents of the map the event points
to. -/
structure Event (Time : Type) where
  InvolvedObject : ObjectReference
  Severity : String
  Timestamp : Time
  Message : String
  Reason : String
  Metadata : Option GoMap
  ReportingController : String

/-- Struct `Alertmanager`.  `CertPool` stands for `*x509.CertPool` and `Config`
for `*relabel.Config`. -/
structure Alertmanager (CertPool Config : Type) where
  URL : String
  ProxyURL : String
  CertPool : CertPool
  RelabelConfig : Config
  PerformRelabel : Bool

/-- Struct `AlertManagerAlert`. -/
structure AlertManagerAlert where
  Status : String
  Labels : GoMap
  Annotations : GoMap

/-- Constants and collaborators defined outside `alertmanager.go`.
`parseRequestURI` is the error result of `url.ParseRequestURI`;
`unmarshalStrict` is `yaml.UnmarshalStrict` into the fresh `&relabel.Config{}`
(`emptyConfig`); `timeString` is the `String` method of the event timestamp;
`commitStatusKey` is the reserved metadata key read by `isCommitStatus`;
`title` is `cases.Title(language.English, cases.NoLower).String`, a library
function over all of Unicode, and `title_ascii` records what is known of it
here: on a string of ASCII code points it returns what the ASCII transcription
of its transform loop returns;
`relabelProcess` is `labels.FromMap`, then `relabel.Process`, then `Map`;
`postMessage` is the HTTP post of the package, whose outcome may depend on the
state `World` of the network and which leaves a new state. -/
structure Caps (CertPool Config Time World : Type) where
  parseRequestURI : String → Option GoError
  emptyConfig : Config
  unmarshalStrict : String → Except GoError Config
  timeString : Time → String
  commitStatusKey : String
  title : String → String
  title_ascii : ∀ s out, titleNoLowerASCII s = some out → title s = out
  relabelProcess : GoMap → Config → GoMap
  postMessage : World → String → String → CertPool → List AlertManagerAlert →
    Option GoError × World

/-- Modelled from the spec: the helper `isCommitStatus` of the notifier package
is not part of `alertmanager.go`.  It holds exactly when the metadata contains
the reserved commit-status key with the given value. -/
def isCommitStatus (key : String) (md : Option GoMap) (status : String) : Bool :=
  decide (mapIndex md key = some status)

/-! ## Construction -/

section Adapter

variable {CertPool Config Time World : Type}

/-- The validation loop of `NewAlertmanager` over the split endpoints, started
with the accumulator `wrapErr`. -/
def validateLoop (parse : String → Option GoError) :
    List String → Option GoError → Option GoError
  | [], wrapErr => wrapErr
  | alertmanagerUrl :: rest, wrapErr =>
    match parse alertmanagerUrl with
    | some err => validateLoop parse rest (Wrap wrapErr err.Error)
    | none => validateLoop parse rest wrapErr

/-- Function `NewAlertmanager`; the Go result `(nil, err)` is `.error err` and
`(adapter, nil)` is `.ok adapter`. -/
def NewAlertmanager (caps : Caps CertPool Config Time World) (hookURL proxyURL : String)
    (certPool : CertPool) (relabelConfig : String) :
    Except GoError (Alertmanager CertPool Config) :=
  let urls := splitComma hookURL
  match validateLoop caps.parseRequestURI urls none with
  | some wrapErr => .error wrapErr
  | none =>
    if relabelConfig.utf8ByteSize > 0 then
      match caps.unmarshalStrict relabelConfig with
      | .error err => .error err
      | .ok config =>
        .ok { URL := hookURL, ProxyURL := proxyURL, CertPool := certPool,
              RelabelConfig := config, PerformRelabel := true }
    else
      .ok { URL := hookURL, ProxyURL := proxyURL, CertPool := certPool,
            RelabelConfig := caps.emptyConfig, PerformRelabel := false }

/-! ## Posting an event -/

/-- One invocation of `postMessage`, with its four arguments. -/
structure PostCall (CertPool : Type) where
  url : String
  proxyURL : String
  certPool : CertPool
  payload : List AlertManagerAlert

/-- What a call of `Post` leaves behind: the returned error, the contents of
the caller's metadata map after the call, the invocations of the relabel
capability and of `postMessage` in the order they were made, and the state of
the network. -/
structure PostResult (CertPool Config World : Type) where
  err : Option GoError
  metadata : Option GoMap
  relabelCalls : List (GoMap × Config)
  postCalls : List (PostCall CertPool)
  world : World

/-- The eight label assignments of `Post` (alertname to reportingcontroller),
in source order, on the map `m`. -/
def writeLabels (caps : Caps CertPool Config Time World) (event : Event Time)
    (m : GoMap) : GoMap :=
  let m := m.set "alertname"
    ("Flux" ++ event.InvolvedObject.Kind ++ caps.title event.Reason)
  let m := m.set "severity" event.Severity
  let m := m.set "reason" event.Reason
  let m := m.set "timestamp" (caps.timeString event.Timestamp)
  let m := m.set "kind" event.InvolvedObject.Kind
  let m := m.set "name" event.InvolvedObject.Name
  let m := m.set "namespace" event.InvolvedObject.Namespace
  m.set "reportingcontroller" event.ReportingController

/-- The annotation map `Post` builds: `message`, and `summary` when the
metadata has that key. -/
def buildAnnotations (event : Event Time) : GoMap :=
  let annotations := GoMap.empty.set "message" event.Message
  match mapIndex event.Metadata "summary" with
  | some v => annotations.set "summary" v
  | none => annotations

/-- Contents of the event's metadata map once `Post` is past the `summary`
block: the key is deleted when it was present. -/
def metadataAfterSummary (event : Event Time) : Option GoMap :=
  match mapIndex event.Metadata "summary" with
  | some _ => event.Metadata.map fun m => m.delete "summary"
  | none => event.Metadata

/-- The value of `alertLabels` when `Post` reaches the rewrite stage (what
`labels.FromMap` receives): the metadata map itself when the event has one,
else a fresh map, after the eight assignments. -/
def buildLabels (caps : Caps CertPool Config Time World) (event : Event Time) : GoMap :=
  let alertLabels : GoMap :=
    match metadataAfterSummary event with
    | some m => m
    | none => GoMap.empty
  writeLabels caps event alertLabels

/-- The delivery loop of `Post` over the split endpoints, started with the
accumulator `wrapErr` in the network state `w`; it returns the final
accumulator, the invocations of `postMessage` it made and the final state. -/
def postLoop (caps : Caps CertPool Config Time World) (proxyURL : String)
    (certPool : CertPool) (payload : List AlertManagerAlert) :
    List String → Option GoError → World →
      Option GoError × List (PostCall CertPool) × World
  | [], wrapErr, w => (wrapErr, [], w)
  | url :: rest, wrapErr, w =>
    let r := caps.postMessage w url proxyURL certPool payload
    let wrapErr :=
      match r.1 with
      | some err => Wrap wrapErr err.Error
      | none => wrapErr
    let t := postLoop caps proxyURL certPool payload rest wrapErr r.2
    (t.1, ⟨url, proxyURL, certPool, payload⟩ :: t.2.1, t.2.2)

/-- Method `Alertmanager.Post`.  When the event carries a metadata map, the
local `alertLabels` is that same map (Go maps are references), so the
`delete` and the eight assignments act on the caller's map; `metadata` of the
result is its contents when `Post` returns. -/
def Post (caps : Caps CertPool Config Time World) (s : Alertmanager CertPool Config)
    (event : Event Time) (w : World) : PostResult CertPool Config World :=
  if isCommitStatus caps.commitStatusKey event.Metadata "update" then
    { err := none, metadata := event.Metadata, relabelCalls := [], postCalls := [],
      world := w }
  else
    let annotations := buildAnnotations event
    let alertLabels := buildLabels caps event
    let metadata := (metadataAfterSummary event).map fun _ => alertLabels
    let promLabels := alertLabels
    let relabelCalls := if s.PerformRelabel then [(promLabels, s.RelabelConfig)] else []
    let alertLabels :=
      if s.PerformRelabel then caps.relabelProcess promLabels s.RelabelConfig
      else alertLabels
    let payload : List AlertManagerAlert :=
      [{ Labels := alertLabels, Annotations := annotations, Status := "firing" }]
    let urls := splitComma s.URL
    let t := postLoop caps s.ProxyURL s.CertPool payload urls none w
    let err :=
      match t.1 with
      | some wrapErr => some (GoError.errorf "postMessage failed: " wrapErr)
      | none => none
    { err := err, metadata := metadata, relabelCalls := relabelCalls,
      postCalls := t.2.1, world := t.2.2 }

/-- The alert `Post` hands to `postMessage`. -/
def deliveredAlert (caps : Caps CertPool Config Time World)
    (s : Alertmanager CertPool Config) (event : Event Time) : AlertManagerAlert :=
  { Status := "firing",
    Labels :=
      if s.PerformRelabel then caps.relabelProcess (buildLabels caps event) s.RelabelConfig
      else buildLabels caps event,
    Annotations := buildAnnotations event }

/-! ## The spec's wording, for comparison -/

/-- The title-casing rule in the spec's words: the first letter of every
whitespace-delimited word is upper-cased and every remaining letter is
lower-cased.  `inWord` tells whether the previous character belongs to a
word. -/
def specTitleChars : Bool → List Char → List Char
  | _, [] => []
  | inWord, c :: cs =>
    if c.isWhitespace then c :: specTitleChars false cs
    else (if inWord then c.toLower else c.toUpper) :: specTitleChars true cs

/-- The spec's title casing of a string. -/
def specTitle (s : String) : String :=
  String.mk (specTitleChars false s.data)

/-- The title-casing rule of the spec with its second half changed: the first
letter of every whitespace-delimited word is upper-cased and every remaining
character is left as it is.  `inWord` tells whether the previous character
belongs to a word. -/
def keepTitleChars : Bool → List Char → List Char
  | _, [] => []
  | inWord, c :: cs =>
    if c.isWhitespace then c :: keepTitleChars false cs
    else (if inWord then c else c.toUpper) :: keepTitleChars true cs

/-- The rule of `keepTitleChars` on a string. -/
def keepTitle (s : String) : String :=
  String.mk (keepTitleChars false s.data)

/-- The eight labels derived from the event itself, as one lookup; each value
is the one `Post` assigns to that key. -/
def synthesizedLabels (caps : Caps CertPool Config Time World) (event : Event Time)
    (k : String) : Option String :=
  if k = "alertname" then
    some ("Flux" ++ event.InvolvedObject.Kind ++ caps.title event.Reason)
  else if k = "severity" then some event.Severity
  else if k = "reason" then some event.Reason
  else if k = "timestamp" then some (caps.timeString event.Timestamp)
  else if k = "kind" then some event.InvolvedObject.Kind
  else if k = "name" then some event.InvolvedObject.Name
  else if k = "namespace" then some event.InvolvedObject.Namespace
  else if k = "reportingcontroller" then some event.ReportingController
  else none

/-- The base label set in the spec's words: the event's metadata without
`summary` (empty if there is no metadata), overlaid with the eight synthesized
labels, a synthesized value winning over a metadata entry of the same name. -/
def specBaseLabels (caps : Caps CertPool Config Time World) (event : Event Time) :
    GoMap := fun k =>
  match synthesizedLabels caps event k with
  | some v => some v
  | none => if k = "summary" then none else mapIndex event.Metadata k

/-! ## Concrete inputs -/

/-- Collaborators for concrete runs: the URI parser rejects the token
`not-a-url`, the strict parser rejects the document `bogus: 1`, title casing
is the ASCII transcription (and returns its argument on a string with a code
point outside ASCII, which no run below contains), relabelling drops the label
`name`, and posting fails for the endpoint `http://down`; the network state
counts the requests made. -/
def sampleCaps : Caps Unit Unit Unit Nat where
  parseRequestURI u :=
    if u = "not-a-url" then some (.leaf "invalid URI for request") else none
  emptyConfig := ()
  unmarshalStrict doc :=
    if doc = "bogus: 1" then .error (.leaf "field bogus not found") else .ok ()
  timeString _ := "0001-01-01 00:00:00 +0000 UTC"
  commitStatusKey := "commit_status"
  title s := (titleNoLowerASCII s).getD s
  title_ascii s out h := by simp [h]
  relabelProcess m _ := m.delete "name"
  postMessage w url _ _ _ :=
    (if url = "http://down" then some (.leaf "connection refused") else none, w + 1)

/-- An adapter for the endpoint specification `url` with rewriting off. -/
def sampleAdapter (url : String) : Alertmanager Unit Unit :=
  { URL := url, ProxyURL := "", CertPool := (), RelabelConfig := (),
    PerformRelabel := false }

/-- The event of the end-to-end example: a failed build of the Kustomization
`flux-system/app`, without metadata, at time `t`. -/
def buildFailedEvent (t : Time) : Event Time :=
  { InvolvedObject := { Kind := "Kustomization", Namespace := "flux-system", Name := "app" },
    Severity := "error", Timestamp := t, Message := "build failed",
    Reason := "build error", Metadata := none,
    ReportingController := "kustomize-controller" }

/-- An event about the same Kustomization with the given reason and
metadata. -/
def kustomizationEvent (reason : String) (md : Option GoMap) : Event Unit :=
  { InvolvedObject := { Kind := "Kustomization", Namespace := "flux-system", Name := "app" },
    Severity := "error", Timestamp := (), Message := "reconciliation failed",
    Reason := reason, Metadata := md,
    ReportingController := "kustomize-controller" }

/-- An event whose reason has a hyphen between its two words. -/
def hyphenEvent : Event Unit := kustomizationEvent "build-error" none

/-- A failed reconciliation, without metadata. -/
def failedEvent : Event Unit := kustomizationEvent "ReconciliationFailed" none

/-- A failed reconciliation whose metadata holds a `summary`. -/
def summaryEvent : Event Unit :=
  kustomizationEvent "ReconciliationFailed" (some (GoMap.empty.set "summary" "prod cluster"))

/-- A failed reconciliation whose metadata holds only `severity` : `low`. -/
def lowSeverityEvent : Event Unit :=
  kustomizationEvent "ReconciliationFailed" (some (GoMap.empty.set "severity" "low"))

/-- A commit-status update. -/
def updateEvent : Event Unit :=
  kustomizationEvent "Progressing" (some (GoMap.empty.set "commit_status" "update"))

/-- An adapter for the endpoint specification `url` with rewriting on. -/
def relabelAdapter (url : String) : Alertmanager Unit Unit :=
  { URL := url, ProxyURL := "", CertPool := (), RelabelConfig := (),
    PerformRelabel := true }

/-! ## Lemmas on the loops -/

theorem Wrap_nil (message : String) : Wrap none message = none := rfl

theorem validateLoop_nil (parse : String → Option GoError) (urls : List String) :
    validateLoop parse urls none = none := by
  induction urls with
  | nil => rfl
  | cons u rest ih =>
    simp only [validateLoop]
    cases parse u with
    | none => exact ih
    | some e => simpa [Wrap_nil] using ih

theorem postLoop_wrapErr_nil (caps : Caps CertPool Config Time World) (proxyURL : String)
    (certPool : CertPool) (payload : List AlertManagerAlert) (urls : List String)
    (w : World) :
    (postLoop caps proxyURL certPool payload urls none w).1 = none := by
  induction urls generalizing w with
  | nil => rfl
  | cons u rest ih =>
    simp only [postLoop]
    cases (caps.postMessage w u proxyURL certPool payload).1 with
    | none => exact ih _
    | some e => simpa [Wrap_nil] using ih _

theorem postLoop_calls (caps : Caps CertPool Config Time World) (proxyURL : String)
    (certPool : CertPool) (payload : List AlertManagerAlert) (urls : List String)
    (wrapErr : Option GoError) (w : World) :
    (postLoop caps proxyURL certPool payload urls wrapErr w).2.1 =
      urls.map fun u => ⟨u, proxyURL, certPool, payload⟩ := by
  induction urls generalizing wrapErr w with
  | nil => rfl
  | cons u rest ih => simp only [postLoop, List.map_cons, ih]

theorem postLoop_world (caps : Caps CertPool Config Time World) (proxyURL : String)
    (certPool : CertPool) (payload : List AlertManagerAlert) (urls : List String)
    (wrapErr : Option GoError) (w : World) :
    (postLoop caps proxyURL certPool payload urls wrapErr w).2.2 =
      urls.foldl (fun st u => (caps.postMessage st u proxyURL certPool payload).2) w := by
  induction urls generalizing wrapErr w with
  | nil => rfl
  | cons u rest ih => simp only [postLoop, List.foldl_cons, ih]

/-! ## Lemmas on `Post` -/

theorem Post_err_nil (caps : Caps CertPool Config Time World)
    (s : Alertmanager CertPool Config) (event : Event Time) (w : World) :
    (Post caps s event w).err = none := by
  unfold Post
  split
  · rfl
  · simp only [postLoop_wrapErr_nil]

theorem Post_postCalls (caps : Caps CertPool Config Time World)
    (s : Alertmanager CertPool Config) (event : Event Time) (w : World)
    (h : isCommitStatus caps.commitStatusKey event.Metadata "update" = false) :
    (Post caps s event w).postCalls =
      (splitComma s.URL).map fun u =>
        ⟨u, s.ProxyURL, s.CertPool, [deliveredAlert caps s event]⟩ := by
  unfold Post
  simp only [h, Bool.false_eq_true, if_false, postLoop_calls, deliveredAlert]

theorem Post_world (caps : Caps CertPool Config Time World)
    (s : Alertmanager CertPool Config) (event : Event Time) (w : World)
    (h : isCommitStatus caps.commitStatusKey event.Metadata "update" = false) :
    (Post caps s event w).world =
      (splitComma s.URL).foldl
        (fun st u =>
          (caps.postMessage st u s.ProxyURL s.CertPool [deliveredAlert caps s event]).2) w := by
  unfold Post
  simp only [h, Bool.false_eq_true, if_false, postLoop_world, deliveredAlert]

theorem Post_relabelCalls (caps : Caps CertPool Config Time World)
    (s : Alertmanager CertPool Config) (event : Event Time) (w : World)
    (h : isCommitStatus caps.commitStatusKey event.Metadata "update" = false) :
    (Post caps s event w).relabelCalls =
      if s.PerformRelabel then [(buildLabels caps event, s.RelabelConfig)] else [] := by
  unfold Post
  simp only [h, Bool.false_eq_true, if_false]

theorem Post_metadata (caps : Caps CertPool Config Time World)
    (s : Alertmanager CertPool Config) (event : Event Time) (w : World)
    (h : isCommitStatus caps.commitStatusKey event.Metadata "update" = false) :
    (Post caps s event w).metadata =
      (metadataAfterSummary event).map fun _ => buildLabels caps event := by
  unfold Post
  simp only [h, Bool.false_eq_true, if_false]

theorem buildLabels_eq_specBaseLabels (caps : Caps CertPool Config Time World)
    (event : Event Time) : buildLabels caps event = specBaseLabels caps event := by
  funext k
  unfold buildLabels writeLabels specBaseLabels synthesizedLabels metadataAfterSummary
  simp only [GoMap.set]
  by_cases h8 : k = "reportingcontroller"
  · subst h8; simp
  by_cases h7 : k = "namespace"
  · subst h7; simp
  by_cases h6 : k = "name"
  · subst h6; simp
  by_cases h5 : k = "kind"
  · subst h5; simp
  by_cases h4 : k = "timestamp"
  · subst h4; simp
  by_cases h3 : k = "reason"
  · subst h3; simp
  by_cases h2 : k = "severity"
  · subst h2; simp
  by_cases h1 : k = "alertname"
  · subst h1; simp
  simp only [h1, h2, h3, h4, h5, h6, h7, h8, if_false]
  cases hm : event.Metadata with
  | none => simp [mapIndex, GoMap.empty]
  | some m =>
    cases hs : m "summary" with
    | none =>
      by_cases hk : k = "summary"
      · subst hk; simp [mapIndex, hs]
      · simp [mapIndex, hs, hk]
    | some v =>
      by_cases hk : k = "summary"
      · subst hk; simp [mapIndex, hs, GoMap.delete]
      · simp [mapIndex, hs, hk, GoMap.delete]

theorem splitChars_ne_nil (sep : Char) (cs acc : List Char) :
    splitChars sep cs acc ≠ [] := by
  induction cs generalizing acc with
  | nil => simp [splitChars]
  | cons c cs ih =>
    unfold splitChars
    split
    · simp
    · exact ih _

theorem splitComma_ne_nil (s : String) : splitComma s ≠ [] :=
  splitChars_ne_nil _ _ _

/-! ## Construction: endpoint validation -/

/-- C1 (the code departs from the claim).  Whatever the URI parser answers,
also when it rejects one of the comma-separated tokens, `NewAlertmanager` with
an empty rule-set document returns an adapter and no error: `errors.Wrap`
applied to the nil accumulator yields nil, so no parse error is ever kept. -/
theorem NewAlertmanager_accepts_unparsable_endpoint
    (caps : Caps CertPool Config Time World) (hookURL proxyURL : String)
    (certPool : CertPool)
    (hbad : ∃ u ∈ splitComma hookURL, caps.parseRequestURI u ≠ none) :
    NewAlertmanager caps hookURL proxyURL certPool "" =
      .ok { URL := hookURL, ProxyURL := proxyURL, CertPool := certPool,
            RelabelConfig := caps.emptyConfig, PerformRelabel := false } := by
  have _ := hbad
  unfold NewAlertmanager
  simp only [validateLoop_nil]
  rfl

theorem NewAlertmanager_accepts_unparsable_endpoint_witness :
    (∃ u ∈ splitComma "http://a,not-a-url,http://b",
        sampleCaps.parseRequestURI u ≠ none) ∧
      NewAlertmanager sampleCaps "http://a,not-a-url,http://b" "" () "" =
        .ok { URL := "http://a,not-a-url,http://b", ProxyURL := "", CertPool := (),
              RelabelConfig := (), PerformRelabel := false } :=
  ⟨⟨"not-a-url", by decide, by decide⟩,
    NewAlertmanager_accepts_unparsable_endpoint sampleCaps _ _ _
      ⟨"not-a-url", by decide, by decide⟩⟩

/-! ## Delivery -/

/-- C2 (the code departs from the claim).  For an event that is not skipped,
`Post` returns nil even when `postMessage` fails for one of the endpoints in
every state of the network: the failure is passed to `errors.Wrap` with a nil
accumulator and is lost. -/
theorem Post_returns_nil_despite_failed_post
    (caps : Caps CertPool Config Time World) (s : Alertmanager CertPool Config)
    (event : Event Time) (w : World)
    (hskip : isCommitStatus caps.commitStatusKey event.Metadata "update" = false)
    (hfail : ∃ u ∈ splitComma s.URL, ∀ w p c pl, (caps.postMessage w u p c pl).1 ≠ none) :
    (Post caps s event w).err = none := by
  have _ := hskip
  have _ := hfail
  exact Post_err_nil caps s event w

theorem Post_returns_nil_despite_failed_post_witness :
    isCommitStatus sampleCaps.commitStatusKey failedEvent.Metadata "update" = false ∧
      (∃ u ∈ splitComma (sampleAdapter "http://up,http://down").URL,
        ∀ w p c pl, (sampleCaps.postMessage w u p c pl).1 ≠ none) ∧
      (Post sampleCaps (sampleAdapter "http://up,http://down") failedEvent 0).err = none :=
  ⟨by decide, ⟨"http://down", by decide, fun _ _ _ _ => by simp [sampleCaps]⟩,
    Post_returns_nil_despite_failed_post sampleCaps _ _ 0 (by decide)
      ⟨"http://down", by decide, fun _ _ _ _ => by simp [sampleCaps]⟩⟩

/-- C3.  For an event that is not skipped, `Post` applies `postMessage` exactly
once per comma-separated token of the adapter's endpoint specification, in
token order, each time with the adapter's proxy and trust store and with one
and the same one-element payload whose alert has status `firing`: the
recorded invocations are that list, and the network state `Post` leaves is the
one reached by applying `postMessage` to the tokens one after the other, each
attempt starting in the state the previous one left.  This holds for every
behaviour of `postMessage`, whichever attempts fail. -/
theorem Post_posts_once_per_endpoint
    (caps : Caps CertPool Config Time World) (s : Alertmanager CertPool Config)
    (event : Event Time) (w : World)
    (hskip : isCommitStatus caps.commitStatusKey event.Metadata "update" = false) :
    ∃ alert : AlertManagerAlert, alert.Status = "firing" ∧
      (Post caps s event w).postCalls =
        ((splitComma s.URL).map fun u => ⟨u, s.ProxyURL, s.CertPool, [alert]⟩) ∧
      (Post caps s event w).world =
        (splitComma s.URL).foldl
          (fun st u => (caps.postMessage st u s.ProxyURL s.CertPool [alert]).2) w :=
  ⟨deliveredAlert caps s event, rfl, Post_postCalls caps s event w hskip,
    Post_world caps s event w hskip⟩

theorem Post_posts_once_per_endpoint_witness :
    isCommitStatus sampleCaps.commitStatusKey failedEvent.Metadata "update" = false ∧
      ∃ alert : AlertManagerAlert, alert.Status = "firing" ∧
        (Post sampleCaps (sampleAdapter "http://up,http://down") failedEvent 0).postCalls =
          ((splitComma "http://up,http://down").map fun u => ⟨u, "", (), [alert]⟩) ∧
        (Post sampleCaps (sampleAdapter "http://up,http://down") failedEvent 0).world =
          (splitComma "http://up,http://down").foldl
            (fun st u => (sampleCaps.postMessage st u "" () [alert]).2) 0 :=
  ⟨by decide, Post_posts_once_per_endpoint sampleCaps _ _ 0 (by decide)⟩

/-- C4.  When the event's metadata maps the reserved commit-status key to
`update`, `Post` returns nil, invokes neither the relabel capability nor
`postMessage`, and leaves the metadata and the network as they were, for every
adapter (whatever its endpoints and relabel flag). -/
theorem Post_skips_update_event
    (caps : Caps CertPool Config Time World) (s : Alertmanager CertPool Config)
    (event : Event Time) (w : World)
    (hupdate : mapIndex event.Metadata caps.commitStatusKey = some "update") :
    Post caps s event w =
      { err := none, metadata := event.Metadata, relabelCalls := [], postCalls := [],
        world := w } := by
  unfold Post isCommitStatus
  simp [hupdate]

theorem Post_skips_update_event_witness :
    mapIndex updateEvent.Metadata sampleCaps.commitStatusKey = some "update" ∧
      Post sampleCaps (sampleAdapter "http://up,http://down") updateEvent 0 =
        { err := none,
          metadata := some (GoMap.empty.set "commit_status" "update"),
          relabelCalls := [], postCalls := [], world := 0 } :=
  ⟨by decide, Post_skips_update_event sampleCaps _ _ 0 (by decide)⟩

/-! ## The built alert -/

theorem buildLabels_summary (caps : Caps CertPool Config Time World)
    (event : Event Time) : buildLabels caps event "summary" = none := by
  rw [buildLabels_eq_specBaseLabels]
  simp [specBaseLabels, synthesizedLabels]

/-- C5.  For an event that is not skipped, something is delivered and every
delivery carries a one-element payload whose annotations are exactly
`message` (the event message) when the metadata has no `summary` key, and
exactly `message` and `summary` (the metadata value) when it has one; in that
case `summary` is not a key of the label set built from the event. -/
theorem Post_annotations
    (caps : Caps CertPool Config Time World) (s : Alertmanager CertPool Config)
    (event : Event Time) (w : World)
    (hskip : isCommitStatus caps.commitStatusKey event.Metadata "update" = false) :
    (Post caps s event w).postCalls ≠ [] ∧
    (mapIndex event.Metadata "summary" = none →
      ∀ call ∈ (Post caps s event w).postCalls, ∃ alert, call.payload = [alert] ∧
        alert.Annotations = GoMap.empty.set "message" event.Message) ∧
    (∀ v, mapIndex event.Metadata "summary" = some v →
      (∀ call ∈ (Post caps s event w).postCalls, ∃ alert, call.payload = [alert] ∧
        alert.Annotations = (GoMap.empty.set "message" event.Message).set "summary" v) ∧
      buildLabels caps event "summary" = none) := by
  rw [Post_postCalls caps s event w hskip]
  refine ⟨?_, ?_, ?_⟩
  · simpa using splitComma_ne_nil s.URL
  · intro hnone call hcall
    obtain ⟨u, -, rfl⟩ := List.mem_map.mp hcall
    exact ⟨_, rfl, by simp [deliveredAlert, buildAnnotations, hnone]⟩
  · intro v hv
    refine ⟨?_, buildLabels_summary caps event⟩
    intro call hcall
    obtain ⟨u, -, rfl⟩ := List.mem_map.mp hcall
    exact ⟨_, rfl, by simp [deliveredAlert, buildAnnotations, hv]⟩

theorem Post_annotations_witness :
    isCommitStatus sampleCaps.commitStatusKey summaryEvent.Metadata "update" = false ∧
    ((Post sampleCaps (sampleAdapter "http://up") summaryEvent 0).postCalls ≠ [] ∧
    (mapIndex summaryEvent.Metadata "summary" = none →
      ∀ call ∈ (Post sampleCaps (sampleAdapter "http://up") summaryEvent 0).postCalls,
        ∃ alert, call.payload = [alert] ∧
          alert.Annotations = GoMap.empty.set "message" "reconciliation failed") ∧
    (∀ v, mapIndex summaryEvent.Metadata "summary" = some v →
      (∀ call ∈ (Post sampleCaps (sampleAdapter "http://up") summaryEvent 0).postCalls,
        ∃ alert, call.payload = [alert] ∧
          alert.Annotations =
            (GoMap.empty.set "message" "reconciliation failed").set "summary" v) ∧
      buildLabels sampleCaps summaryEvent "summary" = none)) :=
  ⟨by decide, Post_annotations sampleCaps _ _ 0 (by decide)⟩

/-- C8.  For an event that is not skipped, with `base` the spec's base label
set (metadata without `summary`, overlaid with the eight synthesized labels):
when the adapter's relabel flag is off the relabel capability is not invoked
and every delivery carries one alert whose labels are `base`; when the flag is
on the capability is invoked once, on `base` and the stored rule set, and
every delivery carries one alert whose labels are its result. -/
theorem Post_labels
    (caps : Caps CertPool Config Time World) (s : Alertmanager CertPool Config)
    (event : Event Time) (w : World)
    (hskip : isCommitStatus caps.commitStatusKey event.Metadata "update" = false) :
    (Post caps s event w).postCalls ≠ [] ∧
    (s.PerformRelabel = false →
      (Post caps s event w).relabelCalls = [] ∧
      ∀ call ∈ (Post caps s event w).postCalls, ∃ alert, call.payload = [alert] ∧
        alert.Labels = specBaseLabels caps event) ∧
    (s.PerformRelabel = true →
      (Post caps s event w).relabelCalls = [(specBaseLabels caps event, s.RelabelConfig)] ∧
      ∀ call ∈ (Post caps s event w).postCalls, ∃ alert, call.payload = [alert] ∧
        alert.Labels = caps.relabelProcess (specBaseLabels caps event) s.RelabelConfig) := by
  rw [Post_postCalls caps s event w hskip, Post_relabelCalls caps s event w hskip,
    buildLabels_eq_specBaseLabels]
  refine ⟨?_, ?_, ?_⟩
  · simpa using splitComma_ne_nil s.URL
  · intro hoff
    refine ⟨by simp [hoff], ?_⟩
    intro call hcall
    obtain ⟨u, -, rfl⟩ := List.mem_map.mp hcall
    exact ⟨_, rfl, by simp [deliveredAlert, hoff, buildLabels_eq_specBaseLabels]⟩
  · intro hon
    refine ⟨by simp [hon], ?_⟩
    intro call hcall
    obtain ⟨u, -, rfl⟩ := List.mem_map.mp hcall
    exact ⟨_, rfl, by simp [deliveredAlert, hon, buildLabels_eq_specBaseLabels]⟩

theorem Post_labels_witness :
    isCommitStatus sampleCaps.commitStatusKey summaryEvent.Metadata "update" = false ∧
    ((Post sampleCaps (relabelAdapter "http://up") summaryEvent 0).postCalls ≠ [] ∧
    ((relabelAdapter "http://up").PerformRelabel = false →
      (Post sampleCaps (relabelAdapter "http://up") summaryEvent 0).relabelCalls = [] ∧
      ∀ call ∈ (Post sampleCaps (relabelAdapter "http://up") summaryEvent 0).postCalls,
        ∃ alert, call.payload = [alert] ∧
          alert.Labels = specBaseLabels sampleCaps summaryEvent) ∧
    ((relabelAdapter "http://up").PerformRelabel = true →
      (Post sampleCaps (relabelAdapter "http://up") summaryEvent 0).relabelCalls =
        [(specBaseLabels sampleCaps summaryEvent, ())] ∧
      ∀ call ∈ (Post sampleCaps (relabelAdapter "http://up") summaryEvent 0).postCalls,
        ∃ alert, call.payload = [alert] ∧
          alert.Labels =
            sampleCaps.relabelProcess (specBaseLabels sampleCaps summaryEvent) ())) :=
  ⟨by decide, Post_labels sampleCaps (relabelAdapter "http://up") summaryEvent 0 (by decide)⟩

/-- C6 (as amended).  For the failed-build event of the end-to-end example,
posted through an adapter with rewriting off, something is delivered and every
delivery carries one alert with `alertname` equal to
`FluxKustomizationBuild Error` (the blank of the reason is kept), `kind` equal
to `Kustomization` and annotations exactly `message` : `build failed`. -/
theorem Post_buildFailed_alert
    (caps : Caps CertPool Config Time World) (s : Alertmanager CertPool Config)
    (t : Time) (w : World) (hoff : s.PerformRelabel = false) :
    (Post caps s (buildFailedEvent t) w).postCalls ≠ [] ∧
    ∀ call ∈ (Post caps s (buildFailedEvent t) w).postCalls, ∃ alert,
      call.payload = [alert] ∧
      alert.Labels "alertname" = some "FluxKustomizationBuild Error" ∧
      alert.Labels "kind" = some "Kustomization" ∧
      alert.Annotations = GoMap.empty.set "message" "build failed" := by
  have hskip : isCommitStatus caps.commitStatusKey (buildFailedEvent t).Metadata "update"
      = false := by
    simp [isCommitStatus, mapIndex, buildFailedEvent]
  rw [Post_postCalls caps s _ w hskip]
  refine ⟨by simpa using splitComma_ne_nil s.URL, ?_⟩
  intro call hcall
  obtain ⟨u, -, rfl⟩ := List.mem_map.mp hcall
  refine ⟨_, rfl, ?_, ?_, ?_⟩
  · have ht : caps.title "build error" = "Build Error" :=
      caps.title_ascii _ _ (by decide)
    simp only [deliveredAlert, hoff, buildLabels_eq_specBaseLabels]
    simp [specBaseLabels, synthesizedLabels, buildFailedEvent, ht]
  · simp only [deliveredAlert, hoff, buildLabels_eq_specBaseLabels]
    simp [specBaseLabels, synthesizedLabels, buildFailedEvent]
  · simp [deliveredAlert, buildAnnotations, mapIndex, buildFailedEvent]

theorem Post_buildFailed_alert_witness :
    (sampleAdapter "http://up").PerformRelabel = false ∧
    ((Post sampleCaps (sampleAdapter "http://up") (buildFailedEvent ()) 0).postCalls ≠ [] ∧
    ∀ call ∈ (Post sampleCaps (sampleAdapter "http://up") (buildFailedEvent ()) 0).postCalls,
      ∃ alert, call.payload = [alert] ∧
        alert.Labels "alertname" = some "FluxKustomizationBuild Error" ∧
        alert.Labels "kind" = some "Kustomization" ∧
        alert.Annotations = GoMap.empty.set "message" "build failed") :=
  ⟨rfl, Post_buildFailed_alert sampleCaps _ () 0 rfl⟩

/-- C6 (counterexample).  Posting the failed-build event through an adapter
with rewriting off delivers one alert whose `alertname` is
`FluxKustomizationBuild Error`, not `FluxKustomizationBuildError`. -/
theorem Post_buildFailed_alertname_has_blank :
    ((Post sampleCaps (sampleAdapter "http://up") (buildFailedEvent ()) 0).postCalls.map
        fun call => call.payload.map fun alert => alert.Labels "alertname") =
      [[some "FluxKustomizationBuild Error"]] ∧
    ((Post sampleCaps (sampleAdapter "http://up") (buildFailedEvent ()) 0).postCalls.map
        fun call => call.payload.map fun alert => alert.Labels "alertname") ≠
      [[some "FluxKustomizationBuildError"]] := by
  constructor <;> decide

/-! ## Title casing of the reason -/

theorem toNat_lt_of_isCased (c : Char) (h : isCased c = true) : c.toNat < 128 := by
  simp only [isCased, Char.isUpper, Char.isLower, Bool.or_eq_true, Bool.and_eq_true,
    decide_eq_true_eq, ge_iff_le, UInt32.le_def, BitVec.le_def] at h
  have e1 : (122 : UInt32).toBitVec.toNat = 122 := rfl
  have e2 : (90 : UInt32).toBitVec.toNat = 90 := rfl
  have e3 : c.toNat = c.val.toBitVec.toNat := rfl
  omega

theorem isWhitespace_facts (c : Char) (h : c.isWhitespace = true) :
    c.toNat < 128 ∧ isCased c = false ∧ isBreak c = true := by
  simp only [Char.isWhitespace, Bool.or_eq_true, decide_eq_true_eq] at h
  rcases h with ((rfl | rfl) | rfl) | rfl <;> decide

theorem not_isWhitespace_of_isCased (c : Char) (h : isCased c = true) :
    c.isWhitespace = false := by
  cases hw : c.isWhitespace with
  | false => rfl
  | true => simp [(isWhitespace_facts c hw).2.1] at h

theorem titleChars_letters (isMidWord : Bool) (cs : List Char)
    (h : ∀ c ∈ cs, isCased c = true ∨ c.isWhitespace = true) :
    titleChars isMidWord false cs = some (keepTitleChars isMidWord cs) := by
  induction cs generalizing isMidWord with
  | nil => rfl
  | cons c cs ih =>
    have hcs : ∀ d ∈ cs, isCased d = true ∨ d.isWhitespace = true :=
      fun d hd => h d (List.mem_cons_of_mem _ hd)
    unfold titleChars keepTitleChars
    rcases h c (List.mem_cons_self _ _) with hc | hw
    · simp [toNat_lt_of_isCased c hc, hc, not_isWhitespace_of_isCased c hc, ih true hcs]
    · obtain ⟨h1, h2, h3⟩ := isWhitespace_facts c hw
      simp [h1, h2, h3, hw, ih false hcs]

theorem titleNoLowerASCII_letters (r : String)
    (h : ∀ c ∈ r.data, isCased c = true ∨ c.isWhitespace = true) :
    titleNoLowerASCII r = some (keepTitle r) := by
  simp [titleNoLowerASCII, keepTitle, titleChars_letters false r.data h]

/-- C7 (as amended).  For an event that is not skipped whose reason is made of
ASCII letters and whitespace, and an adapter with rewriting off, something is
delivered and every delivery carries one alert whose `alertname` is `Flux`,
then the involved object's kind, then the reason in which the first letter of
every whitespace-delimited word is upper-cased and every other character is
left as it is; so `ReconciliationFailed` contributes
`ReconciliationFailed`. -/
theorem Post_alertname
    (caps : Caps CertPool Config Time World) (s : Alertmanager CertPool Config)
    (event : Event Time) (w : World)
    (hskip : isCommitStatus caps.commitStatusKey event.Metadata "update" = false)
    (hoff : s.PerformRelabel = false)
    (hletters : ∀ c ∈ event.Reason.data, isCased c = true ∨ c.isWhitespace = true) :
    (Post caps s event w).postCalls ≠ [] ∧
    (∀ call ∈ (Post caps s event w).postCalls, ∃ alert, call.payload = [alert] ∧
      alert.Labels "alertname" =
        some ("Flux" ++ event.InvolvedObject.Kind ++ keepTitle event.Reason)) ∧
    keepTitle "ReconciliationFailed" = "ReconciliationFailed" := by
  rw [Post_postCalls caps s event w hskip]
  refine ⟨by simpa using splitComma_ne_nil s.URL, ?_, by decide⟩
  intro call hcall
  obtain ⟨u, -, rfl⟩ := List.mem_map.mp hcall
  refine ⟨_, rfl, ?_⟩
  have ht : caps.title event.Reason = keepTitle event.Reason :=
    caps.title_ascii _ _ (titleNoLowerASCII_letters _ hletters)
  simp only [deliveredAlert, hoff, buildLabels_eq_specBaseLabels]
  simp [specBaseLabels, synthesizedLabels, ht]

theorem Post_alertname_witness :
    isCommitStatus sampleCaps.commitStatusKey failedEvent.Metadata "update" = false ∧
    (sampleAdapter "http://up").PerformRelabel = false ∧
    (∀ c ∈ failedEvent.Reason.data, isCased c = true ∨ c.isWhitespace = true) ∧
    ((Post sampleCaps (sampleAdapter "http://up") failedEvent 0).postCalls ≠ [] ∧
    (∀ call ∈ (Post sampleCaps (sampleAdapter "http://up") failedEvent 0).postCalls,
      ∃ alert, call.payload = [alert] ∧
        alert.Labels "alertname" =
          some ("Flux" ++ "Kustomization" ++ keepTitle "ReconciliationFailed")) ∧
    keepTitle "ReconciliationFailed" = "ReconciliationFailed") :=
  ⟨by decide, rfl, by decide,
    Post_alertname sampleCaps (sampleAdapter "http://up") failedEvent 0 (by decide) rfl
      (by decide)⟩

/-- C7 (counterexample).  For the reason `ReconciliationFailed` the delivered
`alertname` is `FluxKustomizationReconciliationFailed`, whereas the rule of the
claim (remaining letters lower-cased) gives
`FluxKustomizationReconciliationfailed`.  For the reason `build-error` the
delivered `alertname` is `FluxKustomizationBuild-Error`: the hyphen ends a
word although it is not whitespace, and the rule of the claim gives
`FluxKustomizationBuild-error`. -/
theorem Post_alertname_keeps_inner_capitals :
    ((Post sampleCaps (sampleAdapter "http://up") failedEvent 0).postCalls.map
        fun call => call.payload.map fun alert => alert.Labels "alertname") =
      [[some "FluxKustomizationReconciliationFailed"]] ∧
    "Flux" ++ "Kustomization" ++ specTitle "ReconciliationFailed" =
      "FluxKustomizationReconciliationfailed" ∧
    ((Post sampleCaps (sampleAdapter "http://up") failedEvent 0).postCalls.map
        fun call => call.payload.map fun alert => alert.Labels "alertname") ≠
      [[some ("Flux" ++ "Kustomization" ++ specTitle "ReconciliationFailed")]] ∧
    ((Post sampleCaps (sampleAdapter "http://up") hyphenEvent 0).postCalls.map
        fun call => call.payload.map fun alert => alert.Labels "alertname") =
      [[some "FluxKustomizationBuild-Error"]] ∧
    "Flux" ++ "Kustomization" ++ specTitle "build-error" =
      "FluxKustomizationBuild-error" := by
  refine ⟨?_, ?_, ?_, ?_, ?_⟩ <;> decide

/-! ## Construction: the rule-set document -/

theorem utf8ByteSize_pos_of_ne_empty (s : String) (h : s ≠ "") : 0 < s.utf8ByteSize := by
  cases s with
  | mk cs =>
    cases cs with
    | nil => exact absurd rfl h
    | cons c cs =>
      have hc := c.utf8Size_pos
      simp only [String.utf8ByteSize, String.utf8ByteSize.go]
      omega

/-- C9.  When every comma-separated token of the endpoint specification is
accepted by the URI parser: with an empty rule-set document `NewAlertmanager`
returns an adapter with rewriting off; with a non-empty document it returns
the strict parser's error, and no adapter, when strict parsing fails, and an
adapter with rewriting on and the parsed rule set stored when it succeeds.
Every adapter returned holds the endpoint specification, proxy and trust
store that were passed in. -/
theorem NewAlertmanager_rule_set
    (caps : Caps CertPool Config Time World) (hookURL proxyURL : String)
    (certPool : CertPool) (relabelConfig : String)
    (hvalid : ∀ u ∈ splitComma hookURL, caps.parseRequestURI u = none) :
    (relabelConfig = "" →
      NewAlertmanager caps hookURL proxyURL certPool relabelConfig =
        .ok { URL := hookURL, ProxyURL := proxyURL, CertPool := certPool,
              RelabelConfig := caps.emptyConfig, PerformRelabel := false }) ∧
    (relabelConfig ≠ "" → ∀ err, caps.unmarshalStrict relabelConfig = .error err →
      NewAlertmanager caps hookURL proxyURL certPool relabelConfig = .error err) ∧
    (relabelConfig ≠ "" → ∀ config, caps.unmarshalStrict relabelConfig = .ok config →
      NewAlertmanager caps hookURL proxyURL certPool relabelConfig =
        .ok { URL := hookURL, ProxyURL := proxyURL, CertPool := certPool,
              RelabelConfig := config, PerformRelabel := true }) := by
  have _ := hvalid
  refine ⟨?_, ?_, ?_⟩
  · rintro rfl
    unfold NewAlertmanager
    simp only [validateLoop_nil]
    rfl
  · intro hne err herr
    unfold NewAlertmanager
    simp only [validateLoop_nil, utf8ByteSize_pos_of_ne_empty _ hne, if_true, herr]
  · intro hne config hok
    unfold NewAlertmanager
    simp only [validateLoop_nil, utf8ByteSize_pos_of_ne_empty _ hne, if_true, hok]

theorem NewAlertmanager_rule_set_witness :
    (∀ u ∈ splitComma "http://up,http://down", sampleCaps.parseRequestURI u = none) ∧
    (("bogus: 1" = "" →
      NewAlertmanager sampleCaps "http://up,http://down" "http://proxy" () "bogus: 1" =
        .ok { URL := "http://up,http://down", ProxyURL := "http://proxy", CertPool := (),
              RelabelConfig := (), PerformRelabel := false }) ∧
    ("bogus: 1" ≠ "" → ∀ err, sampleCaps.unmarshalStrict "bogus: 1" = .error err →
      NewAlertmanager sampleCaps "http://up,http://down" "http://proxy" () "bogus: 1" =
        .error err) ∧
    ("bogus: 1" ≠ "" → ∀ config, sampleCaps.unmarshalStrict "bogus: 1" = .ok config →
      NewAlertmanager sampleCaps "http://up,http://down" "http://proxy" () "bogus: 1" =
        .ok { URL := "http://up,http://down", ProxyURL := "http://proxy", CertPool := (),
              RelabelConfig := config, PerformRelabel := true })) :=
  ⟨by decide,
    NewAlertmanager_rule_set sampleCaps "http://up,http://down" "http://proxy" ()
      "bogus: 1" (by decide)⟩

/-! ## The caller's metadata map -/

/-- C10 (as amended).  For an event with a non-nil metadata map that is not
skipped, `Post` builds the label set in that map itself: when it returns, the
caller's map has no `summary` key, maps each of the eight synthesized label
keys to its synthesized value, and has every other key at its original
value. -/
theorem Post_writes_labels_into_metadata
    (caps : Caps CertPool Config Time World) (s : Alertmanager CertPool Config)
    (event : Event Time) (w : World) (m : GoMap)
    (hmap : event.Metadata = some m)
    (hskip : isCommitStatus caps.commitStatusKey event.Metadata "update" = false) :
    ∃ after, (Post caps s event w).metadata = some after ∧
      after "summary" = none ∧
      (∀ k v, synthesizedLabels caps event k = some v → after k = some v) ∧
      (∀ k, k ≠ "summary" → synthesizedLabels caps event k = none → after k = m k) := by
  refine ⟨specBaseLabels caps event, ?_, ?_, ?_, ?_⟩
  · rw [Post_metadata caps s event w hskip, buildLabels_eq_specBaseLabels]
    unfold metadataAfterSummary
    rw [hmap]
    cases mapIndex (some m) "summary" <;> rfl
  · simp [specBaseLabels, synthesizedLabels]
  · intro k v hk
    simp [specBaseLabels, hk]
  · intro k hk hnone
    simp [specBaseLabels, hnone, hk, hmap, mapIndex]

theorem Post_writes_labels_into_metadata_witness :
    lowSeverityEvent.Metadata =
      some (GoMap.empty.set "severity" "low") ∧
    isCommitStatus sampleCaps.commitStatusKey lowSeverityEvent.Metadata "update" = false ∧
    ∃ after, (Post sampleCaps (sampleAdapter "http://up") lowSeverityEvent 0).metadata = some after ∧
      after "summary" = none ∧
      (∀ k v, synthesizedLabels sampleCaps lowSeverityEvent k = some v → after k = some v) ∧
      (∀ k, k ≠ "summary" →
        synthesizedLabels sampleCaps lowSeverityEvent k = none →
        after k = (GoMap.empty.set "severity" "low") k) :=
  ⟨rfl, by decide,
    Post_writes_labels_into_metadata sampleCaps (sampleAdapter "http://up") _ 0 _ rfl
      (by decide)⟩

/-- C10 (counterexample).  An event whose metadata map holds only
`severity` : `low` is posted; when `Post` returns, the caller's map has gained
the key `alertname` and its `severity` entry has been overwritten. -/
theorem Post_mutates_caller_metadata :
    mapIndex lowSeverityEvent.Metadata "alertname" = none ∧
    mapIndex (Post sampleCaps (sampleAdapter "http://up") lowSeverityEvent 0).metadata "alertname" =
      some "FluxKustomizationReconciliationFailed" ∧
    mapIndex lowSeverityEvent.Metadata "severity" = some "low" ∧
    mapIndex (Post sampleCaps (sampleAdapter "http://up") lowSeverityEvent 0).metadata "severity" =
      some "error" := by
  refine ⟨?_, ?_, ?_, ?_⟩ <;> decide

end Adapter

end Notifier
